import Mathlib

/-!
Shallow embedding of the rust-school-plugin-uploader pipeline
(`src/utils/plugin-key.ts`, `src/cache.ts` (StateCache / computeDelta /
mergeIndices), `src/webhook.ts` (sendPluginWebhook), `src/cli.ts`
(processAllPluginsSequentially), and the HEAD-metadata helper `headMeta`).

Modelling conventions:
- A TypeScript optional field (`string | undefined`) is `Option String`;
  `none` covers both `undefined` and `null`.
- JavaScript string truthiness (`if (x)`) is `truthy : Option String → Bool`,
  false for `none` and for the empty string.
- JavaScript objects used as string-keyed records are insertion-ordered
  association lists `List (String × α)`; `mapGet`/`mapSet` model
  `Map.get`/`Map.set` (set replaces in place, otherwise appends).
- Network effects are oracles passed as function arguments: the HEAD probe
  is `String → Except String HeadMeta` (`.error` = the request threw), the
  webhook POST outcome per attempt is `Nat → WebhookOutcome`, the binary
  download is `String → Except String (List Nat)` with a `Buffer` as a byte
  list, and SHA-256 is an abstract `List Nat → String` parameter.
- Extension-map values (`JsonValue`) are modelled by their scalar cases;
  no modelled operation ever inspects an extension value, only its key.
-/

/-- Scalar cases of the `JsonValue` union from `src/types.ts`; extension-map
values are only carried around (object spread is key-based), never inspected. -/
inductive JVal
| str (s : String)
| num (n : Int)
| boolV (b : Bool)
| nullV
deriving DecidableEq, Repr

/-- `plugin_resource_id : string | number` from `src/types.ts`. -/
inductive ResId
| str (s : String)
| num (n : Int)
deriving DecidableEq, Repr

/-- `PluginFileRef` from `src/types.ts`. -/
structure PluginFileRef where
  path : Option String
  raw_url : Option String
  sha : Option String
  size : Option Nat
deriving DecidableEq, Repr

/-- `PluginRepoRef` from `src/types.ts`. -/
structure PluginRepoRef where
  name : Option String
  full_name : Option String
  html_url : Option String
  description : Option String
  stargazers_count : Option Nat
  archived : Option Bool
deriving DecidableEq, Repr

/-- `IndexedPlugin` from `src/types.ts`; an absent `extra` object behaves as
`{}` in every use site (object spread), so it is a plain list here. -/
structure IndexedPlugin where
  plugin_name : Option String
  plugin_author : Option String
  plugin_version : Option String
  plugin_description : Option String
  plugin_resource_id : Option ResId
  categories : Option (List String)
  file : PluginFileRef
  repository : Option PluginRepoRef
  extra : List (String × JVal)
deriving DecidableEq, Repr

/-- `PluginIndex` from `src/types.ts`. -/
structure PluginIndex where
  generated_at : String
  query : Option String
  count : Nat
  items : List IndexedPlugin
deriving DecidableEq, Repr

/-- `CachedEntry` from `src/types.ts`. -/
structure CachedEntry where
  key : String
  etag : Option String
  lastModified : Option String
  contentHash : Option String
  fileSha : Option String
  fileSize : Option Nat
  notifiedAt : String
deriving DecidableEq, Repr

/-- `StateFile` from `src/types.ts`: `entries` is a string-keyed object. -/
structure StateFile where
  entries : List (String × CachedEntry)
  version : Nat
  updatedAt : String
deriving DecidableEq, Repr

/-- JavaScript truthiness of an optional string: `undefined`, `null` and
`""` are falsy. -/
def truthy : Option String → Bool
| none => false
| some s => s != ""

/-- `Map.get` / object indexing on an insertion-ordered association list. -/
def mapGet {α : Type} (m : List (String × α)) (k : String) : Option α :=
  (m.find? (fun e => e.1 == k)).map Prod.snd

/-- `Map.set`: replace the value in place when the key exists, otherwise
append the binding at the end (JavaScript `Map` insertion-order semantics). -/
def mapSet {α : Type} (m : List (String × α)) (k : String) (v : α) : List (String × α) :=
  if m.any (fun e => e.1 == k) then
    m.map (fun e => if e.1 == k then (k, v) else e)
  else m ++ [(k, v)]

/-- `src/utils/plugin-key.ts` `pluginKey`: the raw URL when truthy, else
`(repository?.full_name ?? repository?.name ?? "repository") :: (file.path ?? "file")`. -/
def pluginKey (plugin : IndexedPlugin) : String :=
  if truthy plugin.file.raw_url then plugin.file.raw_url.getD ""
  else
    let repository :=
      ((plugin.repository.bind PluginRepoRef.full_name).orElse
        (fun _ => plugin.repository.bind PluginRepoRef.name)).getD "repository"
    let path := plugin.file.path.getD "file"
    repository ++ "::" ++ path

/-- `src/merger.ts` (in `src/cache.ts` concatenation) `mergeField`:
return `secondary` unless it is `undefined`/`null`/the designated empty
value, in which case keep `primary`. -/
def mergeField {α : Type} (isEmptyVal : α → Bool) (primary secondary : Option α) : Option α :=
  match secondary with
  | none => primary
  | some v => if isEmptyVal v then primary else some v

/-- The `=== ""` test of `mergeField` specialised to strings. -/
def strIsEmptyVal (s : String) : Bool := s == ""

/-- The `=== ""` test of `mergeField` on `string | number` values: only the
string `""` compares equal. -/
def residIsEmptyVal (r : ResId) : Bool := r == ResId.str ""

/-- Object spread `{ ...base, ...inc }` on string-keyed records: keys of
`base` in order with values overridden by `inc`, then keys only in `inc`. -/
def spreadMerge (base inc : List (String × JVal)) : List (String × JVal) :=
  base.map (fun e =>
    match mapGet inc e.1 with
    | some v => (e.1, v)
    | none => e)
  ++ inc.filter (fun e => !(base.any (fun b => b.1 == e.1)))

/-- `mergePlugin` from the merger section of `src/cache.ts`. -/
def mergePlugin (existing incoming : IndexedPlugin) : IndexedPlugin :=
  { plugin_name := mergeField strIsEmptyVal existing.plugin_name incoming.plugin_name
    plugin_author := mergeField strIsEmptyVal existing.plugin_author incoming.plugin_author
    plugin_version := mergeField strIsEmptyVal existing.plugin_version incoming.plugin_version
    plugin_description := mergeField strIsEmptyVal existing.plugin_description incoming.plugin_description
    plugin_resource_id := mergeField residIsEmptyVal existing.plugin_resource_id incoming.plugin_resource_id
    categories :=
      match incoming.categories with
      | some l => if l.length != 0 then some l else existing.categories
      | none => existing.categories
    file := if truthy incoming.file.raw_url then incoming.file else existing.file
    repository := incoming.repository.orElse (fun _ => existing.repository)
    extra := spreadMerge existing.extra incoming.extra }

/-- The seeding loop of `mergeIndices`: `for (plugin of oxide.items)
merged.set(pluginKey(plugin), plugin)`. -/
def seedFromBase (items : List IndexedPlugin) : List (String × IndexedPlugin) :=
  items.foldl (fun m plugin => mapSet m (pluginKey plugin) plugin) []

/-- `mergeIndices` from the merger section of `src/cache.ts`; `now` stands
for `new Date().toISOString()`. -/
def mergeIndices (now : String) (oxide crawled : PluginIndex) : PluginIndex :=
  let seeded := seedFromBase oxide.items
  let merged := crawled.items.foldl
    (fun m plugin =>
      let key := pluginKey plugin
      match mapGet m key with
      | some existing => mapSet m key (mergePlugin existing plugin)
      | none => mapSet m key plugin)
    seeded
  let items := merged.map Prod.snd
  { generated_at := now
    query := some ("Merged oxide(" ++ toString oxide.count ++ ") + crawled(" ++ toString crawled.count ++ ")")
    count := items.length
    items := items }

/-- `STATE.VERSION` from `src/config.ts`. -/
def stateVersion : Nat := 1

/-- `EMPTY_STATE` from `src/cache.ts`. -/
def emptyState : StateFile :=
  { entries := [], version := stateVersion, updatedAt := "" }

/-- What `StateCache.load` can observe of the cache file on disk:
missing, unparseable, or a parsed `StateFile`. -/
inductive FsFile
| absent
| invalid (message : String)
| parsed (sf : StateFile)
deriving DecidableEq, Repr

/-- `fs.readJson` on the observed file: throws on a missing or unparseable
file, returns the parsed snapshot otherwise. -/
def readJsonE : FsFile → Except String StateFile
| .absent => .error "ENOENT"
| .invalid message => .error message
| .parsed sf => .ok sf

/-- `StateCache.load` from `src/cache.ts`, with every `throw` that could
escape made explicit as `.error`: the `pathExists` guard handles a missing
file, the `try`/`catch` swallows the parse failure, and a version mismatch
is replaced by the empty snapshot. -/
def loadStateE (fsfile : FsFile) : Except String StateFile :=
  if fsfile = FsFile.absent then .ok emptyState
  else
    match readJsonE fsfile with
    | .ok parsed => if parsed.version != stateVersion then .ok emptyState else .ok parsed
    | .error _ => .ok emptyState

/-- The in-memory state after `load()`: on a normal return the loaded
snapshot replaces the prior state; a thrown error would leave it unchanged. -/
def memLoad (prior : StateFile) (fsfile : FsFile) : StateFile :=
  match loadStateE fsfile with
  | .ok s => s
  | .error _ => prior

/-- `StateCache.set`: in-memory upsert keyed by `entry.key`. -/
def stateSet (s : StateFile) (entry : CachedEntry) : StateFile :=
  { s with entries := mapSet s.entries entry.key entry }

/-- The snapshot `StateCache.save` writes (and keeps in memory): the current
state with `updatedAt` refreshed; `now` stands for `new Date().toISOString()`. -/
def savePayload (s : StateFile) (now : String) : StateFile :=
  { s with updatedAt := now }

/-- The header bundle returned by `headMeta` in `src/api.ts`. -/
structure HeadMeta where
  etag : Option String
  lastModified : Option String
  contentLength : Option Nat
  contentType : Option String
deriving DecidableEq, Repr

/-- The `{}` returned by `headMeta` when the HEAD request throws. -/
def emptyHeadMeta : HeadMeta :=
  { etag := none, lastModified := none, contentLength := none, contentType := none }

/-- `normalizeRawUrl` from `src/utils/url.ts` (in `src/cache.ts`
concatenation): percent-encode `#`. -/
def normalizeRawUrl (rawUrl : String) : String :=
  rawUrl.replace "#" "%23"

/-- `headMeta` from `src/api.ts` over a transport oracle: a failed HEAD
request degrades to the empty metadata bundle. -/
def headMeta (transport : String → Except String HeadMeta) (rawUrl : String) : HeadMeta :=
  match transport (normalizeRawUrl rawUrl) with
  | .ok meta => meta
  | .error _ => emptyHeadMeta

/-- `DiffReason` from `src/cache.ts`. -/
inductive DiffReason
| new
| updated
deriving DecidableEq, Repr

/-- `DiffMetadata` from `src/cache.ts`. -/
structure DiffMetadata where
  etag : Option String
  lastModified : Option String
  contentLength : Option Nat
  requiresContentHashCheck : Bool
deriving DecidableEq, Repr

/-- `DiffItem` from `src/cache.ts`. -/
structure DiffItem where
  plugin : IndexedPlugin
  reason : DiffReason
  cacheKey : String
  metadata : DiffMetadata
  previous : Option CachedEntry
deriving DecidableEq, Repr

/-- `hasReliableMarkers` from `src/cache.ts`:
`Boolean(meta.etag || meta.lastModified || plugin.file.sha)`. -/
def hasReliableMarkers (meta : DiffMetadata) (plugin : IndexedPlugin) : Bool :=
  truthy meta.etag || truthy meta.lastModified || truthy plugin.file.sha

/-- `unchanged` from `src/cache.ts`: any one matching marker (or matching
defined sizes) means no notification is owed. -/
def unchanged (meta : DiffMetadata) (plugin : IndexedPlugin) (previous : CachedEntry) : Bool :=
  (truthy meta.etag && truthy previous.etag && meta.etag == previous.etag) ||
  (truthy meta.lastModified && truthy previous.lastModified &&
    meta.lastModified == previous.lastModified) ||
  (truthy plugin.file.sha && truthy previous.fileSha && plugin.file.sha == previous.fileSha) ||
  (meta.contentLength.isSome && previous.fileSize.isSome &&
    meta.contentLength == previous.fileSize) ||
  (plugin.file.size.isSome && previous.fileSize.isSome && plugin.file.size == previous.fileSize)

/-- `plugin.file.raw_url ? await headMeta(plugin.file.raw_url) : {}` from
`computeDelta`'s per-plugin callback. -/
def probedMeta (transport : String → Except String HeadMeta) (plugin : IndexedPlugin) : HeadMeta :=
  if truthy plugin.file.raw_url then headMeta transport (plugin.file.raw_url.getD "")
  else emptyHeadMeta

/-- The per-plugin callback body of `computeDelta` in `src/cache.ts`,
returning `none` where the code returns `null` (unchanged plugin). -/
def classifyPlugin (transport : String → Except String HeadMeta)
    (cache : List (String × CachedEntry)) (plugin : IndexedPlugin) : Option DiffItem :=
  let key := pluginKey plugin
  match mapGet cache key with
  | none =>
    let meta := probedMeta transport plugin
    let metadata : DiffMetadata :=
      { etag := meta.etag
        lastModified := meta.lastModified
        contentLength := meta.contentLength.orElse (fun _ => plugin.file.size)
        requiresContentHashCheck := false }
    some { plugin := plugin, reason := .new, cacheKey := key, metadata := metadata,
           previous := none }
  | some previous =>
    let meta := probedMeta transport plugin
    let baseMeta : DiffMetadata :=
      { etag := meta.etag
        lastModified := meta.lastModified
        contentLength := meta.contentLength.orElse (fun _ => plugin.file.size)
        requiresContentHashCheck := false }
    let reliable := hasReliableMarkers baseMeta plugin
    let metadata : DiffMetadata := { baseMeta with requiresContentHashCheck := !reliable }
    if !reliable then
      some { plugin := plugin, reason := .updated, cacheKey := key, metadata := metadata,
             previous := some previous }
    else if unchanged metadata plugin previous then none
    else
      some { plugin := plugin, reason := .updated, cacheKey := key, metadata := metadata,
             previous := some previous }

/-- `computeDelta` from `src/cache.ts`: classification is independent per
plugin, `Promise.all` keeps input positions, and `null` results are
filtered out. -/
def computeDelta (transport : String → Except String HeadMeta)
    (plugins : List IndexedPlugin) (cache : List (String × CachedEntry)) : List DiffItem :=
  (plugins.map (classifyPlugin transport cache)).filterMap id

/-- One webhook POST attempt's observable outcome: success, an HTTP error
response (with the optional `retry_after` seconds of a 429 body), or a
network error (no response, `status ?? 0`). -/
inductive WebhookOutcome
| success
| http (status : Nat) (retryAfter : Option Nat)
| network
deriving DecidableEq, Repr

/-- How a `sendPluginWebhook` run ends: the `return` on success, the
`throw axiosError` on a non-retryable failure (carrying the observed
status, 0 for a network error), or the final `throw` after the loop. -/
inductive SendStatus
| delivered
| terminal (status : Nat)
| exhausted
deriving DecidableEq, Repr

/-- Observable trace of a `sendPluginWebhook` run: how it ended, how many
POST attempts were made, and the sleeps performed (in ms, in order). -/
structure SendRun where
  result : SendStatus
  attempts : Nat
  sleeps : List Nat
deriving DecidableEq, Repr

/-- `MAX_WEBHOOK_ATTEMPTS` from `src/webhook.ts`. -/
def maxWebhookAttempts : Nat := 5

/-- The retry loop of `sendPluginWebhook` in `src/webhook.ts`, indexed by
the current `attempt` counter and the remaining iterations: 429 sleeps
`ceil((retry_after ?? 1) * 1000)` ms and retries, 5xx sleeps
`500 * (attempt + 1)` ms and retries, anything else rethrows at once. -/
def sendLoop (outcomes : Nat → WebhookOutcome) (attempt : Nat) : Nat → SendRun
| 0 => { result := .exhausted, attempts := 0, sleeps := [] }
| remaining + 1 =>
  match outcomes attempt with
  | .success => { result := .delivered, attempts := 1, sleeps := [] }
  | .network => { result := .terminal 0, attempts := 1, sleeps := [] }
  | .http status retryAfter =>
    if status == 429 then
      let rest := sendLoop outcomes (attempt + 1) remaining
      { result := rest.result, attempts := rest.attempts + 1,
        sleeps := 1000 * retryAfter.getD 1 :: rest.sleeps }
    else if 500 ≤ status && status < 600 then
      let rest := sendLoop outcomes (attempt + 1) remaining
      { result := rest.result, attempts := rest.attempts + 1,
        sleeps := 500 * (attempt + 1) :: rest.sleeps }
    else { result := .terminal status, attempts := 1, sleeps := [] }

/-- `sendPluginWebhook` from `src/webhook.ts`: the missing-endpoint guard
throws before any attempt, otherwise the retry loop runs with attempt
counter 0 and `MAX_WEBHOOK_ATTEMPTS` iterations. -/
def sendPluginWebhook (webhookUrl : String) (outcomes : Nat → WebhookOutcome) :
    Except String SendRun :=
  if webhookUrl == "" then .error "DISCORD_WEBHOOK_URL must be configured."
  else .ok (sendLoop outcomes 0 maxWebhookAttempts)

/-- Spec-side predicate: the outcomes §4.6 calls retryable (rate limit or
5xx-class response). -/
def retryableOutcome : WebhookOutcome → Bool
| .http status _ => status == 429 || (500 ≤ status && status < 600)
| _ => false

/-- Spec-side delay: the sleep §4.6 prescribes after a retryable failure at
a given attempt index (server-dictated seconds for 429, linear backoff for
5xx). -/
def specSleep : WebhookOutcome → Nat → Nat
| .http status retryAfter, attempt =>
  if status == 429 then 1000 * retryAfter.getD 1 else 500 * (attempt + 1)
| _, _ => 0

/-- Spec-side predicate: an outcome the claim calls a terminal failure with
the given observed status (a network error surfaces as status 0). -/
def terminalOutcome (outcome : WebhookOutcome) (status : Nat) : Prop :=
  (outcome = .network ∧ status = 0) ∨
  (∃ retryAfter, outcome = .http status retryAfter ∧ status ≠ 429 ∧
    ¬(500 ≤ status ∧ status < 600))

/-- An attachment handed to the webhook sender (`src/webhook.ts`). -/
structure AttachmentPayload where
  name : String
  buffer : List Nat
deriving DecidableEq, Repr

/-- `!FLAGS.ONLY_CS_ATTACHMENTS || rawUrl.toLowerCase().endsWith(".cs")`
from `processAllPluginsSequentially`. -/
def allowsAttachmentFor (onlyCsAttachments : Bool) (rawUrl : String) : Bool :=
  !onlyCsAttachments || rawUrl.toLower.endsWith ".cs"

/-- The `candidateName` computation of `processAllPluginsSequentially`:
last `/`-segment of a truthy `file.path`, else the plugin name, else
`"plugin"`. -/
def candidateNameFor (plugin : IndexedPlugin) : String :=
  match plugin.file.path with
  | some path =>
    if path != "" then ((path.splitOn "/").getLast?).getD "plugin"
    else plugin.plugin_name.getD "plugin"
  | none => plugin.plugin_name.getD "plugin"

/-- The `attachmentName` computation: force a `.cs` suffix when missing. -/
def attachmentNameFor (candidateName : String) : String :=
  if candidateName.toLower.endsWith ".cs" then candidateName else candidateName ++ ".cs"

/-- The attachment download of the delivery loop: attempted only when the
attachment policy allows this raw URL; a failed download degrades to `none`
(no attachment, no content hash). -/
def downloadFor (getFile : String → Except String (List Nat)) (onlyCsAttachments : Bool)
    (rawUrl : String) : Option (List Nat) :=
  if allowsAttachmentFor onlyCsAttachments rawUrl then (getFile rawUrl).toOption
  else none

/-- The `safeBuffer` computation: drop the downloaded body when it exceeds
the attachment byte ceiling. -/
def safeBufferFor (maxAttachmentBytes : Nat) (download : Option (List Nat)) :
    Option (List Nat) :=
  match download with
  | some buffer => if buffer.length ≤ maxAttachmentBytes then some buffer else none
  | none => none

/-- The `CachedEntry` upserted by `processAllPluginsSequentially` after a
successful send: delivery timestamp, content hash of the downloaded body,
source sha, and effective file size (`safeBuffer?.byteLength ?? file.size`). -/
def entryFor (getFile : String → Except String (List Nat)) (sha256F : List Nat → String)
    (now : String) (onlyCsAttachments : Bool) (maxAttachmentBytes : Nat)
    (plugin : IndexedPlugin) : CachedEntry :=
  let download := downloadFor getFile onlyCsAttachments (plugin.file.raw_url.getD "")
  { key := pluginKey plugin
    etag := none
    lastModified := none
    contentHash := download.map sha256F
    fileSha := plugin.file.sha
    fileSize := ((safeBufferFor maxAttachmentBytes download).map List.length).orElse
      (fun _ => plugin.file.size)
    notifiedAt := now }

/-- The body of the `for (const plugin of plugins)` loop of
`processAllPluginsSequentially` in `src/cli.ts`, threading the in-memory
`entries` object and the `processedKeys` set. `sendWebhook` abstracts
`sendPluginWebhook` (with `.error` = it threw), `getFile` the binary
download, `sha256F` the hash, `now` the delivery timestamps. A successful
send upserts the cache entry and persists; any send failure is caught and
the loop continues without recording state. -/
def processLoop (sendWebhook : IndexedPlugin → Option AttachmentPayload → Except String Unit)
    (getFile : String → Except String (List Nat)) (sha256F : List Nat → String)
    (now : String) (onlyCsAttachments : Bool) (maxAttachmentBytes : Nat) :
    List IndexedPlugin → List (String × CachedEntry) → List String →
      List (String × CachedEntry)
| [], entries, _ => entries
| plugin :: rest, entries, processedKeys =>
  if !truthy plugin.file.raw_url then
    processLoop sendWebhook getFile sha256F now onlyCsAttachments maxAttachmentBytes
      rest entries processedKeys
  else
    let rawUrl := plugin.file.raw_url.getD ""
    let key := pluginKey plugin
    if processedKeys.contains key then
      processLoop sendWebhook getFile sha256F now onlyCsAttachments maxAttachmentBytes
        rest entries processedKeys
    else
      let download := downloadFor getFile onlyCsAttachments rawUrl
      let attachmentName := attachmentNameFor (candidateNameFor plugin)
      let safeBuffer := safeBufferFor maxAttachmentBytes download
      match sendWebhook plugin
        (safeBuffer.map (fun buffer => { name := attachmentName, buffer := buffer })) with
      | .ok _ =>
        processLoop sendWebhook getFile sha256F now onlyCsAttachments maxAttachmentBytes
          rest
          (mapSet entries key
            (entryFor getFile sha256F now onlyCsAttachments maxAttachmentBytes plugin))
          (key :: processedKeys)
      | .error _ =>
        processLoop sendWebhook getFile sha256F now onlyCsAttachments maxAttachmentBytes
          rest entries processedKeys

/-- `processAllPluginsSequentially` from `src/cli.ts`, observed through the
final `entries` object of the state cache: `processedKeys` starts as the
keys of the entries already cached; the pending-empty early return and the
final save leave `entries` unchanged, so the loop result is the final
entry set in every case. -/
def processAllPluginsSequentially
    (sendWebhook : IndexedPlugin → Option AttachmentPayload → Except String Unit)
    (getFile : String → Except String (List Nat)) (sha256F : List Nat → String)
    (now : String) (onlyCsAttachments : Bool) (maxAttachmentBytes : Nat)
    (plugins : List IndexedPlugin) (entries0 : List (String × CachedEntry)) :
    List (String × CachedEntry) :=
  processLoop sendWebhook getFile sha256F now onlyCsAttachments maxAttachmentBytes
    plugins entries0 (entries0.map (fun e => e.2.key))

/-- The per-entry override of the base component of `spreadMerge`. -/
def overrideWith (inc : List (String × JVal)) (e : String × JVal) : String × JVal :=
  match mapGet inc e.1 with
  | some v => (e.1, v)
  | none => e

/-- The filter keeping only incoming keys absent from the base record. -/
def keyNotIn (base : List (String × JVal)) (e : String × JVal) : Bool :=
  !(base.any (fun b => b.1 == e.1))

/-- Spec-side description of one complete run of the retry sub-protocol,
relative to the attempt-index base: a delivered or terminal run ends on its
last attempt, every earlier attempt failed retryably and slept the
prescribed delay; an exhausted run consists solely of retryable failures,
each followed by its prescribed sleep. -/
def RunMatchesProtocol (outcomes : Nat → WebhookOutcome) (base : Nat) (run : SendRun) : Prop :=
  (run.result = SendStatus.delivered →
    1 ≤ run.attempts ∧
    outcomes (base + (run.attempts - 1)) = WebhookOutcome.success ∧
    (∀ j, j < run.attempts - 1 → retryableOutcome (outcomes (base + j)) = true) ∧
    run.sleeps = (List.range (run.attempts - 1)).map
      (fun j => specSleep (outcomes (base + j)) (base + j))) ∧
  (∀ status, run.result = SendStatus.terminal status →
    1 ≤ run.attempts ∧
    terminalOutcome (outcomes (base + (run.attempts - 1))) status ∧
    (∀ j, j < run.attempts - 1 → retryableOutcome (outcomes (base + j)) = true) ∧
    run.sleeps = (List.range (run.attempts - 1)).map
      (fun j => specSleep (outcomes (base + j)) (base + j))) ∧
  (run.result = SendStatus.exhausted →
    (∀ j, j < run.attempts → retryableOutcome (outcomes (base + j)) = true) ∧
    run.sleeps = (List.range run.attempts).map
      (fun j => specSleep (outcomes (base + j)) (base + j)))

/-- Concrete fixture: a plugin known only by name and direct-download URL. -/
def fixturePlugin (name url : String) : IndexedPlugin :=
  { plugin_name := some name
    plugin_author := none
    plugin_version := none
    plugin_description := none
    plugin_resource_id := none
    categories := none
    file := { path := none, raw_url := some url, sha := none, size := none }
    repository := none
    extra := [] }

/-- Concrete fixture: a repository reference with a short name only. -/
def fixtureRepoNameOnly : PluginRepoRef :=
  { name := some "owner"
    full_name := none
    html_url := none
    description := none
    stargazers_count := none
    archived := none }

/-- Concrete fixture: no download URL, no path, no sha, and a repository
carrying only its short name. -/
def fixtureNoMarkers : IndexedPlugin :=
  { plugin_name := none
    plugin_author := none
    plugin_version := none
    plugin_description := none
    plugin_resource_id := none
    categories := none
    file := { path := none, raw_url := none, sha := none, size := none }
    repository := some fixtureRepoNameOnly
    extra := [] }

/-- Concrete fixture: a HEAD transport that always fails. -/
def headOracleDown : String → Except String HeadMeta := fun _ => .error "offline"

/-- The repository component of the plugin key as the amended claim words
it: the full name when the repository declares one, else the short name
when declared, else the literal placeholder. -/
def keyRepoComponent (plugin : IndexedPlugin) : String :=
  match plugin.repository with
  | none => "repository"
  | some repo =>
    match repo.full_name with
    | some fullName => fullName
    | none =>
      match repo.name with
      | some shortName => shortName
      | none => "repository"

/-- The file component of the plugin key: the path when declared, else the
literal placeholder. -/
def keyFileComponent (plugin : IndexedPlugin) : String :=
  match plugin.file.path with
  | some path => path
  | none => "file"

/-- Modelled from the amended claim: the key is the direct-download URL
when present and non-empty; otherwise the repository component joined to
the file component by `::`. -/
def pluginKeySpec (plugin : IndexedPlugin) : String :=
  match plugin.file.raw_url with
  | some url =>
    if url = "" then keyRepoComponent plugin ++ "::" ++ keyFileComponent plugin else url
  | none => keyRepoComponent plugin ++ "::" ++ keyFileComponent plugin

/-- Concrete fixture: a bare cache entry for a given key. -/
def fixtureEntry (key : String) : CachedEntry :=
  { key := key
    etag := none
    lastModified := none
    contentHash := none
    fileSha := none
    fileSize := none
    notifiedAt := "2024-01-01T00:00:00Z" }

/-- Concrete fixture: a fully populated base record. -/
def fixtureBase : IndexedPlugin :=
  { plugin_name := some "Legacy"
    plugin_author := some "Old"
    plugin_version := some "1.0.0"
    plugin_description := some "Oxide desc"
    plugin_resource_id := some (ResId.num 1)
    categories := some ["oxide"]
    file := { path := some "plugin.cs", raw_url := some "https://example.com/plugin.cs",
              sha := none, size := none }
    repository := some { name := none, full_name := some "oxide/repo", html_url := none,
                         description := none, stargazers_count := none, archived := none }
    extra := [("a", JVal.num 1), ("b", JVal.num 2)] }

/-- Concrete fixture: an enriched record with several absent/empty fields. -/
def fixtureEnriched : IndexedPlugin :=
  { plugin_name := some "Enhanced"
    plugin_author := none
    plugin_version := some ""
    plugin_description := none
    plugin_resource_id := none
    categories := some []
    file := { path := none, raw_url := none, sha := none, size := none }
    repository := none
    extra := [("b", JVal.num 3), ("c", JVal.num 4)] }

/-- Concrete fixture: a webhook sender that succeeds for the plugin named
Alpha and throws for every other plugin. -/
def fixtureSendOracle : IndexedPlugin → Option AttachmentPayload → Except String Unit :=
  fun plugin _ =>
    if plugin.plugin_name == some "Alpha" then Except.ok () else Except.error "boom"

/-- Concrete fixture: a binary download that always fails. -/
def fixtureGetFile : String → Except String (List Nat) := fun _ => Except.error "download"

/-- Concrete fixture: an opaque stand-in hash function. -/
def fixtureSha256 : List Nat → String := fun _ => "deadbeef"

theorem mapGet_cons {α : Type} (e : String × α) (m : List (String × α)) (k : String) :
    mapGet (e :: m) k = if e.1 = k then some e.2 else mapGet m k := by
  by_cases h : e.1 = k <;> simp [mapGet, List.find?_cons, h]

theorem mapGet_eq_none_iff {α : Type} (m : List (String × α)) (k : String) :
    mapGet m k = none ↔ ∀ e ∈ m, e.1 ≠ k := by
  simp [mapGet, List.find?_eq_none]

theorem anyKey_eq_false_iff {α : Type} (m : List (String × α)) (k : String) :
    (m.any (fun e => e.1 == k)) = false ↔ ∀ e ∈ m, e.1 ≠ k := by
  simp [List.any_eq_true]

theorem mapGet_append {α : Type} (l₁ l₂ : List (String × α)) (k : String) :
    mapGet (l₁ ++ l₂) k = (mapGet l₁ k).orElse (fun _ => mapGet l₂ k) := by
  induction l₁ with
  | nil => simp [mapGet, Option.orElse]
  | cons e l ih =>
    rw [List.cons_append, mapGet_cons, mapGet_cons]
    by_cases h : e.1 = k <;> simp [h, ih, Option.orElse]

theorem mapGet_map_replace_self {α : Type} (m : List (String × α)) (k : String) (v : α)
    (hany : m.any (fun e => e.1 == k) = true) :
    mapGet (m.map (fun e => if e.1 == k then (k, v) else e)) k = some v := by
  induction m with
  | nil => simp at hany
  | cons e l ih =>
    simp only [List.map_cons]
    by_cases h : e.1 = k
    · rw [if_pos (by simpa using h), mapGet_cons, if_pos rfl]
    · rw [if_neg (by simpa using h), mapGet_cons, if_neg h]
      exact ih (by simpa [h] using hany)

theorem mapGet_map_replace_other {α : Type} (m : List (String × α)) (k k' : String) (v : α)
    (h : k' ≠ k) :
    mapGet (m.map (fun e => if e.1 == k then (k, v) else e)) k' = mapGet m k' := by
  induction m with
  | nil => rfl
  | cons e l ih =>
    simp only [List.map_cons]
    by_cases he : e.1 = k
    · rw [if_pos (by simpa using he), mapGet_cons, mapGet_cons, if_neg (by exact fun hk => h hk.symm),
        if_neg (by rw [he]; exact fun hk => h hk.symm)]
      exact ih
    · rw [if_neg (by simpa using he), mapGet_cons, mapGet_cons]
      by_cases hk : e.1 = k'
      · rw [if_pos hk, if_pos hk]
      · rw [if_neg hk, if_neg hk]
        exact ih

theorem mapGet_mapSet_self {α : Type} (m : List (String × α)) (k : String) (v : α) :
    mapGet (mapSet m k v) k = some v := by
  unfold mapSet
  by_cases hany : (m.any (fun e => e.1 == k)) = true
  · rw [if_pos hany]
    exact mapGet_map_replace_self m k v hany
  · have hfalse : (m.any (fun e => e.1 == k)) = false := by
      rw [Bool.not_eq_true] at hany
      exact hany
    rw [if_neg hany, mapGet_append,
      (mapGet_eq_none_iff m k).mpr ((anyKey_eq_false_iff m k).mp hfalse)]
    simp [mapGet_cons, Option.orElse]

theorem mapGet_mapSet_other {α : Type} (m : List (String × α)) (k k' : String) (v : α)
    (h : k' ≠ k) :
    mapGet (mapSet m k v) k' = mapGet m k' := by
  unfold mapSet
  by_cases hany : (m.any (fun e => e.1 == k)) = true
  · rw [if_pos hany]
    exact mapGet_map_replace_other m k k' v h
  · rw [if_neg hany, mapGet_append, mapGet_cons]
    rw [if_neg (by exact fun hk => h hk.symm)]
    cases hm : mapGet m k' <;> simp [mapGet, Option.orElse]

theorem mapSet_fresh {α : Type} (m : List (String × α)) (k : String) (v : α)
    (h : mapGet m k = none) : mapSet m k v = m ++ [(k, v)] := by
  unfold mapSet
  rw [if_neg]
  intro hany
  rcases List.any_eq_true.mp hany with ⟨e, hmem, hkey⟩
  exact ((mapGet_eq_none_iff m k).mp h e hmem) (by simpa using hkey)

theorem mapGet_of_keysNodup {α : Type} (m : List (String × α)) (k : String) (v : α)
    (hnodup : (m.map Prod.fst).Nodup) (hmem : (k, v) ∈ m) : mapGet m k = some v := by
  induction m with
  | nil => simp at hmem
  | cons e l ih =>
    rw [List.map_cons] at hnodup
    rw [mapGet_cons]
    rcases List.mem_cons.mp hmem with he | hl
    · rw [← he]
      simp
    · have hk : k ∈ l.map Prod.fst := List.mem_map.mpr ⟨(k, v), hl, rfl⟩
      have hne : e.1 ≠ k := by
        intro hek
        exact (List.nodup_cons.mp hnodup).1 (hek ▸ hk)
      rw [if_neg hne]
      exact ih (List.nodup_cons.mp hnodup).2 hl

theorem mapSet_self_of_nodup {α : Type} (m : List (String × α)) (k : String) (v : α)
    (hnodup : (m.map Prod.fst).Nodup) (hmem : (k, v) ∈ m) : mapSet m k v = m := by
  unfold mapSet
  rw [if_pos (List.any_eq_true.mpr ⟨(k, v), hmem, by simp⟩)]
  apply List.map_congr_left ?_ |>.trans (List.map_id m)
  intro e he
  by_cases hek : e.1 = k
  · have : e = (k, v) := by
      have hget := mapGet_of_keysNodup m k v hnodup hmem
      have hget2 := mapGet_of_keysNodup m e.1 e.2 hnodup (by simpa using he)
      rw [hek] at hget2
      have : e.2 = v := by
        have := hget2.symm.trans hget
        simpa using this
      calc e = (e.1, e.2) := rfl
        _ = (k, v) := by rw [hek, this]
    simp [this]
  · simp [hek]

theorem find?_map_keypreserving {α : Type} (f : (String × α) → (String × α))
    (hf : ∀ e, (f e).1 = e.1) (l : List (String × α)) (k : String) :
    (l.map f).find? (fun e => e.1 == k) = (l.find? (fun e => e.1 == k)).map f := by
  induction l with
  | nil => rfl
  | cons e l ih =>
    rw [List.map_cons, List.find?_cons, List.find?_cons, hf e]
    cases hbk : (e.1 == k) <;> simp [ih]

theorem find?_filter_of {α : Type} (p q : α → Bool) (himp : ∀ e, p e = true → q e = true)
    (l : List α) : (l.filter q).find? p = l.find? p := by
  induction l with
  | nil => rfl
  | cons e l ih =>
    rw [List.filter_cons]
    by_cases hq : q e = true
    · rw [if_pos hq, List.find?_cons, List.find?_cons]
      cases hp : p e <;> simp [ih]
    · have hp : p e = false := by
        cases hpe : p e
        · rfl
        · exact absurd (himp e hpe) hq
      rw [if_neg hq, List.find?_cons, hp]
      exact ih

theorem spreadMerge_eq (base inc : List (String × JVal)) :
    spreadMerge base inc = base.map (overrideWith inc) ++ inc.filter (keyNotIn base) := rfl

theorem overrideWith_key (inc : List (String × JVal)) (e : String × JVal) :
    (overrideWith inc e).1 = e.1 := by
  unfold overrideWith
  cases hm : mapGet inc e.1 <;> simp

theorem mapGet_spreadMerge (base inc : List (String × JVal)) (k : String) :
    mapGet (spreadMerge base inc) k = (mapGet inc k).orElse (fun _ => mapGet base k) := by
  rw [spreadMerge_eq, mapGet_append]
  cases hb : base.find? (fun e => e.1 == k) with
  | none =>
    have hbase : mapGet base k = none := by
      rw [mapGet, hb]
      rfl
    have hnotin : ∀ e ∈ base, e.1 ≠ k := (mapGet_eq_none_iff base k).mp hbase
    have hmapped : mapGet (base.map (overrideWith inc)) k = none := by
      rw [mapGet, find?_map_keypreserving _ (overrideWith_key inc), hb]
      rfl
    have hfilter : mapGet (inc.filter (keyNotIn base)) k = mapGet inc k := by
      rw [mapGet, mapGet]
      rw [find?_filter_of (fun e => e.1 == k) (keyNotIn base) ?_ inc]
      intro e hpe
      have hek : e.1 = k := by simpa using hpe
      unfold keyNotIn
      rw [Bool.not_eq_true', hek]
      exact (anyKey_eq_false_iff base k).mpr hnotin
    rw [hmapped, hfilter, hbase]
    cases hi : mapGet inc k <;> simp [Option.orElse]
  | some e =>
    have hek : e.1 = k := by simpa using List.find?_some hb
    have hbase : mapGet base k = some e.2 := by
      rw [mapGet, hb]
      rfl
    have hmapped : mapGet (base.map (overrideWith inc)) k =
        some (match mapGet inc k with
          | some v => v
          | none => e.2) := by
      rw [mapGet, find?_map_keypreserving _ (overrideWith_key inc), hb]
      simp only [Option.map_some']
      unfold overrideWith
      rw [hek]
      cases hm : mapGet inc k <;> simp [hm]
    rw [hmapped, hbase]
    cases hi : mapGet inc k <;> simp [Option.orElse]

theorem mergeField_self {α : Type} (isEmptyVal : α → Bool) (x : Option α) :
    mergeField isEmptyVal x x = x := by
  cases x with
  | none => rfl
  | some v =>
    have h : mergeField isEmptyVal (some v) (some v) =
        if isEmptyVal v = true then some v else some v := rfl
    rw [h, ite_self]

theorem spreadMerge_self (l : List (String × JVal)) (h : (l.map Prod.fst).Nodup) :
    spreadMerge l l = l := by
  rw [spreadMerge_eq]
  have hmap : l.map (overrideWith l) = l := by
    have : ∀ e ∈ l, overrideWith l e = e := by
      intro e he
      unfold overrideWith
      rw [mapGet_of_keysNodup l e.1 e.2 h (by simpa using he)]
    exact (List.map_congr_left this).trans (List.map_id l)
  have hfilter : l.filter (keyNotIn l) = [] := by
    rw [List.filter_eq_nil_iff]
    intro e he
    have hany : (l.any fun b => b.1 == e.1) = true := List.any_eq_true.mpr ⟨e, he, by simp⟩
    simp [keyNotIn, hany]
  rw [hmap, hfilter, List.append_nil]

theorem mergePlugin_self (p : IndexedPlugin) (hextra : (p.extra.map Prod.fst).Nodup) :
    mergePlugin p p = p := by
  obtain ⟨n, a, v, d, r, c, f, rep, ex⟩ := p
  unfold mergePlugin
  simp only [mergeField_self]
  congr 1
  · cases c with
    | none => rfl
    | some l => simp
  · exact ite_self f
  · cases rep <;> rfl
  · exact spreadMerge_self ex (by simpa using hextra)

theorem getLast?_cons_orElse {β : Type} (a : β) (l : List β) :
    (a :: l).getLast? = (l.getLast?).orElse (fun _ => some a) := by
  induction l generalizing a with
  | nil => rfl
  | cons b l ih =>
    rw [List.getLast?_cons_cons, ih b]
    cases hl : l.getLast? <;> simp [ih, hl, Option.orElse]

theorem foldl_fixed {β γ : Type} (f : γ → β → γ) (m : γ) (l : List β)
    (h : ∀ x ∈ l, f m x = m) : l.foldl f m = m := by
  induction l with
  | nil => rfl
  | cons x l ih =>
    rw [List.foldl_cons, h x (List.mem_cons_self x l)]
    exact ih (fun y hy => h y (List.mem_cons_of_mem x hy))

theorem seedGo_last_writer (items : List IndexedPlugin) (k : String) :
    ∀ m : List (String × IndexedPlugin),
      mapGet (items.foldl (fun m plugin => mapSet m (pluginKey plugin) plugin) m) k =
        ((items.filter (fun p => pluginKey p == k)).getLast?).orElse (fun _ => mapGet m k) := by
  induction items with
  | nil =>
    intro m
    simp [Option.orElse]
  | cons p rest ih =>
    intro m
    rw [List.foldl_cons, List.filter_cons]
    by_cases hk : pluginKey p = k
    · rw [if_pos (by simpa using hk), getLast?_cons_orElse, ih, hk,
        mapGet_mapSet_self m k p]
      cases hrest : (rest.filter (fun p => pluginKey p == k)).getLast? <;>
        simp [Option.orElse]
    · rw [if_neg (by simpa using hk), ih, mapGet_mapSet_other m (pluginKey p) k p
        (fun hkk => hk hkk.symm)]

theorem seedGo_fresh (items : List IndexedPlugin) :
    ∀ m : List (String × IndexedPlugin),
      (∀ p ∈ items, mapGet m (pluginKey p) = none) →
      (items.map pluginKey).Nodup →
      items.foldl (fun m plugin => mapSet m (pluginKey plugin) plugin) m =
        m ++ items.map (fun p => (pluginKey p, p)) := by
  induction items with
  | nil =>
    intro m _ _
    simp
  | cons p rest ih =>
    intro m hfresh hnodup
    rw [List.map_cons] at hnodup
    rw [List.foldl_cons, mapSet_fresh m (pluginKey p) p (hfresh p (List.mem_cons_self p rest))]
    rw [ih (m ++ [(pluginKey p, p)]) ?_ (List.nodup_cons.mp hnodup).2]
    · simp
    · intro q hq
      rw [mapGet_append, hfresh q (List.mem_cons_of_mem p hq), mapGet_cons]
      have hne : pluginKey p ≠ pluginKey q := by
        intro hpq
        exact (List.nodup_cons.mp hnodup).1 (hpq ▸ List.mem_map.mpr ⟨q, hq, rfl⟩)
      rw [if_neg hne]
      rfl

/-- C5 (amended): when `mergeIndices` seeds its key-to-record map from the
base catalog, the LAST writer wins: for every key, the record the seeding
stage retains is the last base-catalog record bearing that key. -/
theorem seedFromBase_last_writer_wins (items : List IndexedPlugin) (k : String) :
    mapGet (seedFromBase items) k = (items.filter (fun p => pluginKey p == k)).getLast? := by
  unfold seedFromBase
  rw [seedGo_last_writer items k []]
  cases h : (items.filter (fun p => pluginKey p == k)).getLast? <;>
    simp [Option.orElse, mapGet]

theorem sendLoop_protocol (outcomes : Nat → WebhookOutcome) :
    ∀ remaining attempt,
      (sendLoop outcomes attempt remaining).attempts ≤ remaining ∧
      ((sendLoop outcomes attempt remaining).result = SendStatus.exhausted →
        (sendLoop outcomes attempt remaining).attempts = remaining) ∧
      RunMatchesProtocol outcomes attempt (sendLoop outcomes attempt remaining) := by
  intro remaining
  induction remaining with
  | zero =>
    intro attempt
    have hres : (sendLoop outcomes attempt 0).result = SendStatus.exhausted := rfl
    have hatt : (sendLoop outcomes attempt 0).attempts = 0 := rfl
    have hslp : (sendLoop outcomes attempt 0).sleeps = [] := rfl
    refine ⟨le_of_eq hatt, fun _ => hatt, ?_, ?_, ?_⟩
    · intro h
      rw [hres] at h
      exact absurd h (by simp)
    · intro status h
      rw [hres] at h
      exact absurd h (by simp)
    · intro _
      rw [hatt, hslp]
      exact ⟨fun j hj => absurd hj (by omega), by simp⟩
  | succ r ih =>
    intro attempt
    cases ho : outcomes attempt with
    | success =>
      have hres : (sendLoop outcomes attempt (r + 1)).result = SendStatus.delivered := by
        simp [sendLoop, ho]
      have hatt : (sendLoop outcomes attempt (r + 1)).attempts = 1 := by
        simp [sendLoop, ho]
      have hslp : (sendLoop outcomes attempt (r + 1)).sleeps = [] := by
        simp [sendLoop, ho]
      refine ⟨by omega, ?_, ?_, ?_, ?_⟩
      · intro h
        rw [hres] at h
        exact absurd h (by simp)
      · intro _
        rw [hatt, hslp]
        exact ⟨le_refl 1, by simpa using ho, fun j hj => absurd hj (by omega), by simp⟩
      · intro status h
        rw [hres] at h
        exact absurd h (by simp)
      · intro h
        rw [hres] at h
        exact absurd h (by simp)
    | network =>
      have hres : (sendLoop outcomes attempt (r + 1)).result = SendStatus.terminal 0 := by
        simp [sendLoop, ho]
      have hatt : (sendLoop outcomes attempt (r + 1)).attempts = 1 := by
        simp [sendLoop, ho]
      have hslp : (sendLoop outcomes attempt (r + 1)).sleeps = [] := by
        simp [sendLoop, ho]
      refine ⟨by omega, ?_, ?_, ?_, ?_⟩
      · intro h
        rw [hres] at h
        exact absurd h (by simp)
      · intro h
        rw [hres] at h
        exact absurd h (by simp)
      · intro status h
        rw [hres] at h
        have hs : status = 0 := by
          cases h
          rfl
        rw [hatt, hslp, hs]
        refine ⟨le_refl 1, ?_, fun j hj => absurd hj (by omega), by simp⟩
        simp only [Nat.sub_self, Nat.add_zero]
        exact Or.inl ⟨ho, rfl⟩
      · intro h
        rw [hres] at h
        exact absurd h (by simp)
    | http status retryAfter =>
      by_cases hretry : status = 429 ∨ (500 ≤ status ∧ status < 600)
      · obtain ⟨hle, hexh, hdel, hterm, hexhp⟩ := ih (attempt + 1)
        have hdelay : specSleep (WebhookOutcome.http status retryAfter) attempt =
            if status == 429 then 1000 * retryAfter.getD 1 else 500 * (attempt + 1) := rfl
        have hres : (sendLoop outcomes attempt (r + 1)).result =
            (sendLoop outcomes (attempt + 1) r).result := by
          rcases hretry with h429 | h5xx
          · simp [sendLoop, ho, h429]
          · by_cases h429 : status = 429
            · simp [sendLoop, ho, h429]
            · simp [sendLoop, ho, h429, h5xx.1, h5xx.2]
        have hatt : (sendLoop outcomes attempt (r + 1)).attempts =
            (sendLoop outcomes (attempt + 1) r).attempts + 1 := by
          rcases hretry with h429 | h5xx
          · simp [sendLoop, ho, h429]
          · by_cases h429 : status = 429
            · simp [sendLoop, ho, h429]
            · simp [sendLoop, ho, h429, h5xx.1, h5xx.2]
        have hslp : (sendLoop outcomes attempt (r + 1)).sleeps =
            specSleep (outcomes attempt) attempt ::
              (sendLoop outcomes (attempt + 1) r).sleeps := by
          rcases hretry with h429 | h5xx
          · simp [sendLoop, ho, h429, specSleep]
          · by_cases h429 : status = 429
            · simp [sendLoop, ho, h429, specSleep]
            · simp [sendLoop, ho, h429, h5xx.1, h5xx.2, specSleep]
        have hretb : retryableOutcome (outcomes attempt) = true := by
          rw [ho]
          rcases hretry with h429 | h5xx
          · simp [retryableOutcome, h429]
          · simp [retryableOutcome, h5xx.1, h5xx.2]
        have hprefix : ∀ X : Nat,
            (∀ j, j < X → retryableOutcome (outcomes (attempt + 1 + j)) = true) →
            (∀ j, j < X + 1 → retryableOutcome (outcomes (attempt + j)) = true) := by
          intro X hx j hj
          cases j with
          | zero => simpa using hretb
          | succ i =>
            rw [show attempt + (i + 1) = attempt + 1 + i from by omega]
            exact hx i (by omega)
        have hsleeps : ∀ X : Nat,
            (sendLoop outcomes (attempt + 1) r).sleeps =
              (List.range X).map
                (fun j => specSleep (outcomes (attempt + 1 + j)) (attempt + 1 + j)) →
            (sendLoop outcomes attempt (r + 1)).sleeps =
              (List.range (X + 1)).map
                (fun j => specSleep (outcomes (attempt + j)) (attempt + j)) := by
          intro X hx
          rw [hslp, hx, List.range_succ_eq_map, List.map_cons, List.map_map]
          refine congrArg₂ _ (by simp) ?_
          refine List.map_congr_left ?_
          intro j _
          simp only [Function.comp]
          rw [show attempt + (j + 1) = attempt + 1 + j from by omega]
      -- the three protocol components
        refine ⟨by omega, ?_, ?_, ?_, ?_⟩
        · intro h
          rw [hres] at h
          rw [hatt, hexh h]
        · intro h
          rw [hres] at h
          obtain ⟨h1, hsucc, hpre, hsl⟩ := hdel h
          refine ⟨by omega, ?_, ?_, ?_⟩
          · rw [hatt]
            simp only [Nat.add_sub_cancel]
            rw [show attempt + (sendLoop outcomes (attempt + 1) r).attempts =
              attempt + 1 + ((sendLoop outcomes (attempt + 1) r).attempts - 1) from by omega]
            exact hsucc
          · rw [hatt]
            simp only [Nat.add_sub_cancel]
            obtain ⟨n, hn⟩ : ∃ n, (sendLoop outcomes (attempt + 1) r).attempts = n + 1 :=
              ⟨(sendLoop outcomes (attempt + 1) r).attempts - 1, by omega⟩
            rw [hn]
            refine hprefix n ?_
            intro j hj
            exact hpre j (by omega)
          · rw [hatt]
            simp only [Nat.add_sub_cancel]
            rw [show (sendLoop outcomes (attempt + 1) r).attempts =
              ((sendLoop outcomes (attempt + 1) r).attempts - 1) + 1 from by omega]
            exact hsleeps _ hsl
        · intro status' h
          rw [hres] at h
          obtain ⟨h1, htm, hpre, hsl⟩ := hterm status' h
          refine ⟨by omega, ?_, ?_, ?_⟩
          · rw [hatt]
            simp only [Nat.add_sub_cancel]
            rw [show attempt + (sendLoop outcomes (attempt + 1) r).attempts =
              attempt + 1 + ((sendLoop outcomes (attempt + 1) r).attempts - 1) from by omega]
            exact htm
          · rw [hatt]
            simp only [Nat.add_sub_cancel]
            obtain ⟨n, hn⟩ : ∃ n, (sendLoop outcomes (attempt + 1) r).attempts = n + 1 :=
              ⟨(sendLoop outcomes (attempt + 1) r).attempts - 1, by omega⟩
            rw [hn]
            refine hprefix n ?_
            intro j hj
            exact hpre j (by omega)
          · rw [hatt]
            simp only [Nat.add_sub_cancel]
            rw [show (sendLoop outcomes (attempt + 1) r).attempts =
              ((sendLoop outcomes (attempt + 1) r).attempts - 1) + 1 from by omega]
            exact hsleeps _ hsl
        · intro h
          rw [hres] at h
          obtain ⟨hpre, hsl⟩ := hexhp h
          refine ⟨?_, ?_⟩
          · rw [hatt]
            exact hprefix _ hpre
          · rw [hatt]
            exact hsleeps _ hsl
      · push_neg at hretry
        obtain ⟨h429, h5xx⟩ := hretry
        have hbool : (decide (500 ≤ status) && decide (status < 600)) = false := by
          rcases Nat.lt_or_ge status 500 with hlt | hge
          · simp [Nat.not_le.mpr hlt]
          · have : ¬ status < 600 := fun hlt600 => absurd (h5xx hge) (by omega)
            simp [this]
        have hres : (sendLoop outcomes attempt (r + 1)).result =
            SendStatus.terminal status := by
          simp [sendLoop, ho, h429, hbool]
        have hatt : (sendLoop outcomes attempt (r + 1)).attempts = 1 := by
          simp [sendLoop, ho, h429, hbool]
        have hslp : (sendLoop outcomes attempt (r + 1)).sleeps = [] := by
          simp [sendLoop, ho, h429, hbool]
        refine ⟨by omega, ?_, ?_, ?_, ?_⟩
        · intro h
          rw [hres] at h
          exact absurd h (by simp)
        · intro h
          rw [hres] at h
          exact absurd h (by simp)
        · intro status' h
          rw [hres] at h
          have hs : status' = status := by
            cases h
            rfl
          rw [hatt, hslp, hs]
          refine ⟨le_refl 1, ?_, fun j hj => absurd hj (by omega), by simp⟩
          simp only [Nat.sub_self, Nat.add_zero]
          exact Or.inr ⟨retryAfter, ho, h429, fun hc => absurd (h5xx hc.1) (by omega)⟩
        · intro h
          rw [hres] at h
          exact absurd h (by simp)

theorem contains_false_of_forall {l : List String} {k : String} (h : ∀ x ∈ l, x ≠ k) :
    l.contains k = false := by
  induction l with
  | nil => rfl
  | cons a l ih =>
    have hstep : (a :: l).contains k = (k == a || l.contains k) := rfl
    rw [hstep, ih (fun x hx => h x (List.mem_cons_of_mem a hx))]
    have hne : k ≠ a := fun hk => h a (List.mem_cons_self a l) hk.symm
    simp [hne]

theorem processLoop_cons_success
    (sendWebhook : IndexedPlugin → Option AttachmentPayload → Except String Unit)
    (getFile : String → Except String (List Nat)) (sha256F : List Nat → String)
    (now : String) (onlyCsAttachments : Bool) (maxAttachmentBytes : Nat)
    (plugin : IndexedPlugin) (rest : List IndexedPlugin)
    (entries : List (String × CachedEntry)) (processedKeys : List String)
    (hurl : truthy plugin.file.raw_url = true)
    (hfresh : processedKeys.contains (pluginKey plugin) = false)
    (hsend : ∀ att, sendWebhook plugin att = .ok ()) :
    processLoop sendWebhook getFile sha256F now onlyCsAttachments maxAttachmentBytes
      (plugin :: rest) entries processedKeys =
    processLoop sendWebhook getFile sha256F now onlyCsAttachments maxAttachmentBytes
      rest
      (mapSet entries (pluginKey plugin)
        (entryFor getFile sha256F now onlyCsAttachments maxAttachmentBytes plugin))
      (pluginKey plugin :: processedKeys) := by
  simp only [processLoop, hurl, hfresh, Bool.not_true, Bool.false_eq_true, if_false, hsend]

theorem processLoop_cons_failure
    (sendWebhook : IndexedPlugin → Option AttachmentPayload → Except String Unit)
    (getFile : String → Except String (List Nat)) (sha256F : List Nat → String)
    (now : String) (onlyCsAttachments : Bool) (maxAttachmentBytes : Nat)
    (plugin : IndexedPlugin) (rest : List IndexedPlugin)
    (entries : List (String × CachedEntry)) (processedKeys : List String)
    (hurl : truthy plugin.file.raw_url = true)
    (hfresh : processedKeys.contains (pluginKey plugin) = false)
    (hsend : ∀ att, ∃ msg, sendWebhook plugin att = .error msg) :
    processLoop sendWebhook getFile sha256F now onlyCsAttachments maxAttachmentBytes
      (plugin :: rest) entries processedKeys =
    processLoop sendWebhook getFile sha256F now onlyCsAttachments maxAttachmentBytes
      rest entries processedKeys := by
  obtain ⟨msg, hmsg⟩ := hsend
    ((safeBufferFor maxAttachmentBytes
      (downloadFor getFile onlyCsAttachments (plugin.file.raw_url.getD ""))).map
        (fun buffer => { name := attachmentNameFor (candidateNameFor plugin),
                         buffer := buffer }))
  simp only [processLoop, hurl, hfresh, Bool.not_true, Bool.false_eq_true, if_false, hmsg]

/-- C2 counterexample: for a record with no direct-download URL, no file
path, and a repository declaring only a short name, the key is
`owner::file`, not the claimed `repository::file`: the code falls back to
the repository short name before the literal placeholder. -/
theorem pluginKey_placeholder_counterexample :
    pluginKey fixtureNoMarkers = "owner::file" ∧
    pluginKey fixtureNoMarkers ≠ "repository::file" := by
  constructor
  · rfl
  · decide

/-- C2 (amended): the key is the direct-download URL when present and
non-empty; otherwise `repo::file` where the repository component falls back
from full name to short name to the literal `repository`, and the file
component falls back from path to the literal `file`. -/
theorem pluginKey_fallback_characterization (plugin : IndexedPlugin) :
    pluginKey plugin = pluginKeySpec plugin := by
  obtain ⟨n, a, v, d, r, c, f, rep, ex⟩ := plugin
  obtain ⟨path, rawUrl, sha, size⟩ := f
  cases rawUrl with
  | none =>
    cases rep with
    | none =>
      cases path <;>
        simp [pluginKey, pluginKeySpec, keyRepoComponent, keyFileComponent, truthy,
          Option.orElse]
    | some repo =>
      obtain ⟨rname, rfull, rurl, rdesc, rstars, rarch⟩ := repo
      cases rfull <;> cases rname <;> cases path <;>
        simp [pluginKey, pluginKeySpec, keyRepoComponent, keyFileComponent, truthy,
          Option.orElse, Option.bind]
  | some url =>
    by_cases hu : url = ""
    · subst hu
      cases rep with
      | none =>
        cases path <;>
          simp [pluginKey, pluginKeySpec, keyRepoComponent, keyFileComponent, truthy,
            Option.orElse]
      | some repo =>
        obtain ⟨rname, rfull, rurl, rdesc, rstars, rarch⟩ := repo
        cases rfull <;> cases rname <;> cases path <;>
          simp [pluginKey, pluginKeySpec, keyRepoComponent, keyFileComponent, truthy,
            Option.orElse, Option.bind]
    · simp [pluginKey, pluginKeySpec, truthy, hu]

/-- C5 counterexample: seeding the key-to-record map from a base catalog
holding two records with the same key retains the LATER record, not the
earlier one as claimed; the full merge with an empty enriched catalog shows
the same. -/
theorem seedFromBase_first_writer_counterexample :
    mapGet (seedFromBase [fixturePlugin "Alpha" "u", fixturePlugin "Beta" "u"])
        (pluginKey (fixturePlugin "Alpha" "u")) ≠ some (fixturePlugin "Alpha" "u") ∧
    mapGet (seedFromBase [fixturePlugin "Alpha" "u", fixturePlugin "Beta" "u"])
        (pluginKey (fixturePlugin "Alpha" "u")) = some (fixturePlugin "Beta" "u") ∧
    (mergeIndices "2024-01-01T00:00:00Z"
      { generated_at := "g", query := none, count := 2,
        items := [fixturePlugin "Alpha" "u", fixturePlugin "Beta" "u"] }
      { generated_at := "g", query := none, count := 0, items := [] }).items =
      [fixturePlugin "Beta" "u"] := by
  refine ⟨by decide, by decide, by decide⟩

/-- C3 counterexample: a record with no ETag, no Last-Modified and no
source hash but also no prior cache entry is classified `new` with
`requiresContentHashCheck = false`, not `updated` with the flag set. -/
theorem computeDelta_no_markers_counterexample :
    (computeDelta headOracleDown [fixtureNoMarkers] []).map
        (fun d => (d.reason, d.metadata.requiresContentHashCheck)) =
      [(DiffReason.new, false)] ∧
    DiffReason.new ≠ DiffReason.updated := by
  refine ⟨by decide, by decide⟩

/-- C3 (amended): a record that HAS a prior cache entry and carries no
reliable marker (no current ETag, no current Last-Modified, no source file
hash) is always classified `updated` with `requiresContentHashCheck`
set. -/
theorem computeDelta_unreliable_updated (transport : String → Except String HeadMeta)
    (plugins : List IndexedPlugin) (cache : List (String × CachedEntry))
    (plugin : IndexedPlugin) (prev : CachedEntry)
    (hmem : plugin ∈ plugins)
    (hprev : mapGet cache (pluginKey plugin) = some prev)
    (hetag : truthy (probedMeta transport plugin).etag = false)
    (hlm : truthy (probedMeta transport plugin).lastModified = false)
    (hsha : truthy plugin.file.sha = false) :
    ∃ d ∈ computeDelta transport plugins cache,
      d.plugin = plugin ∧ d.reason = DiffReason.updated ∧
      d.metadata.requiresContentHashCheck = true := by
  have hclass : classifyPlugin transport cache plugin = some
      { plugin := plugin
        reason := DiffReason.updated
        cacheKey := pluginKey plugin
        metadata :=
          { etag := (probedMeta transport plugin).etag
            lastModified := (probedMeta transport plugin).lastModified
            contentLength := (probedMeta transport plugin).contentLength.orElse
              (fun _ => plugin.file.size)
            requiresContentHashCheck := true }
        previous := some prev } := by
    simp [classifyPlugin, hprev, hasReliableMarkers, hetag, hlm, hsha]
  refine ⟨{ plugin := plugin
            reason := DiffReason.updated
            cacheKey := pluginKey plugin
            metadata :=
              { etag := (probedMeta transport plugin).etag
                lastModified := (probedMeta transport plugin).lastModified
                contentLength := (probedMeta transport plugin).contentLength.orElse
                  (fun _ => plugin.file.size)
                requiresContentHashCheck := true }
            previous := some prev }, ?_, rfl, rfl, rfl⟩
  unfold computeDelta
  rw [List.filterMap_map]
  exact List.mem_filterMap.mpr ⟨plugin, hmem, by simpa using hclass⟩

theorem computeDelta_unreliable_updated_witness :
    ∃ d ∈ computeDelta headOracleDown [fixtureNoMarkers]
        [("owner::file", fixtureEntry "owner::file")],
      d.plugin = fixtureNoMarkers ∧ d.reason = DiffReason.updated ∧
      d.metadata.requiresContentHashCheck = true :=
  computeDelta_unreliable_updated headOracleDown [fixtureNoMarkers]
    [("owner::file", fixtureEntry "owner::file")] fixtureNoMarkers
    (fixtureEntry "owner::file") (by decide) (by decide) (by decide) (by decide) (by decide)

/-- C10: every DeltaItem classified `new` (its key has no prior CacheEntry)
carries `requiresContentHashCheck = false`, whatever the HEAD transport
reports or fails to report. -/
theorem computeDelta_new_requires_no_hash_check (transport : String → Except String HeadMeta)
    (plugins : List IndexedPlugin) (cache : List (String × CachedEntry)) (d : DiffItem)
    (hmem : d ∈ computeDelta transport plugins cache)
    (hnew : d.reason = DiffReason.new) :
    d.metadata.requiresContentHashCheck = false ∧ mapGet cache d.cacheKey = none := by
  unfold computeDelta at hmem
  rw [List.filterMap_map] at hmem
  obtain ⟨p, hp, hclass⟩ := List.mem_filterMap.mp hmem
  simp only [Function.comp, id] at hclass
  cases hprev : mapGet cache (pluginKey p) with
  | none =>
    simp only [classifyPlugin, hprev] at hclass
    have hd := Option.some.inj hclass
    constructor
    · rw [← hd]
    · rw [← hd]
      exact hprev
  | some prev =>
    simp only [classifyPlugin, hprev] at hclass
    split at hclass
    · have hd := Option.some.inj hclass
      rw [← hd] at hnew
      simp at hnew
    · split at hclass
      · simp at hclass
      · have hd := Option.some.inj hclass
        rw [← hd] at hnew
        simp at hnew

theorem computeDelta_new_requires_no_hash_check_witness :
    ({ plugin := fixtureNoMarkers
       reason := DiffReason.new
       cacheKey := "owner::file"
       metadata :=
         { etag := none, lastModified := none, contentLength := none,
           requiresContentHashCheck := false }
       previous := none } : DiffItem).metadata.requiresContentHashCheck = false ∧
    mapGet ([] : List (String × CachedEntry)) "owner::file" = none :=
  computeDelta_new_requires_no_hash_check headOracleDown [fixtureNoMarkers] [] _
    (by decide) rfl

/-- C6: `StateCache.load` never throws — on a missing file, an unparseable
file, or a persisted snapshot with a different schema version it resets the
in-memory state to the empty snapshot — and loading is idempotent. -/
theorem stateCache_load_never_throws_resets (prior : StateFile) (fsfile : FsFile) :
    (∃ s, loadStateE fsfile = Except.ok s) ∧
    memLoad prior FsFile.absent = emptyState ∧
    (∀ msg, memLoad prior (FsFile.invalid msg) = emptyState) ∧
    (∀ sf, sf.version ≠ stateVersion → memLoad prior (FsFile.parsed sf) = emptyState) ∧
    memLoad (memLoad prior fsfile) fsfile = memLoad prior fsfile := by
  refine ⟨?_, rfl, fun msg => rfl, ?_, ?_⟩
  · cases fsfile with
    | absent => exact ⟨emptyState, rfl⟩
    | invalid msg => exact ⟨emptyState, rfl⟩
    | parsed sf =>
      by_cases hv : sf.version = stateVersion
      · refine ⟨sf, ?_⟩
        simp [loadStateE, readJsonE, hv]
      · refine ⟨emptyState, ?_⟩
        simp [loadStateE, readJsonE, hv]
  · intro sf hv
    simp [memLoad, loadStateE, readJsonE, hv]
  · cases fsfile with
    | absent => rfl
    | invalid msg => rfl
    | parsed sf =>
      by_cases hv : sf.version = stateVersion
      · simp [memLoad, loadStateE, readJsonE, hv]
      · simp [memLoad, loadStateE, readJsonE, hv]

theorem stateCache_load_never_throws_resets_witness :
    (∃ s, loadStateE (FsFile.parsed { entries := [], version := 2, updatedAt := "x" }) =
      Except.ok s) ∧
    memLoad emptyState FsFile.absent = emptyState ∧
    (∀ msg, memLoad emptyState (FsFile.invalid msg) = emptyState) ∧
    (∀ sf, sf.version ≠ stateVersion → memLoad emptyState (FsFile.parsed sf) = emptyState) ∧
    memLoad (memLoad emptyState (FsFile.parsed { entries := [], version := 2, updatedAt := "x" }))
        (FsFile.parsed { entries := [], version := 2, updatedAt := "x" }) =
      memLoad emptyState (FsFile.parsed { entries := [], version := 2, updatedAt := "x" }) :=
  stateCache_load_never_throws_resets emptyState
    (FsFile.parsed { entries := [], version := 2, updatedAt := "x" })

/-- C7: persisting the in-memory state with `save()` and loading the
written snapshot in a fresh StateCache instance reproduces the same entry
set: the entries object round-trips unchanged, so every key maps to an
equal CacheEntry. -/
theorem stateCache_save_load_roundtrip (s : StateFile) (now : String)
    (hver : s.version = stateVersion) :
    (memLoad emptyState (FsFile.parsed (savePayload s now))).entries = s.entries ∧
    (∀ k, mapGet (memLoad emptyState (FsFile.parsed (savePayload s now))).entries k =
      mapGet s.entries k) := by
  have hload : memLoad emptyState (FsFile.parsed (savePayload s now)) = savePayload s now := by
    simp [memLoad, loadStateE, readJsonE, savePayload, hver]
  rw [hload]
  exact ⟨rfl, fun k => rfl⟩

theorem stateCache_save_load_roundtrip_witness :
    (memLoad emptyState (FsFile.parsed (savePayload
        { entries := [("k", fixtureEntry "k")], version := 1, updatedAt := "" }
        "2024-06-01T00:00:00Z"))).entries =
      [("k", fixtureEntry "k")] ∧
    (∀ k, mapGet (memLoad emptyState (FsFile.parsed (savePayload
        { entries := [("k", fixtureEntry "k")], version := 1, updatedAt := "" }
        "2024-06-01T00:00:00Z"))).entries k =
      mapGet [("k", fixtureEntry "k")] k) :=
  stateCache_save_load_roundtrip
    { entries := [("k", fixtureEntry "k")], version := 1, updatedAt := "" }
    "2024-06-01T00:00:00Z" rfl

/-- C9: merging a catalog with itself is idempotent: with well-formed
extension maps and pairwise-distinct derived keys, the output item list is
exactly the input item list (one entry per key, carrying the enriched-side
= input values), and its keys are pairwise distinct. -/
theorem mergeIndices_self_idempotent (now : String) (A : PluginIndex)
    (hkeys : (A.items.map pluginKey).Nodup)
    (hextra : ∀ p ∈ A.items, (p.extra.map Prod.fst).Nodup) :
    (mergeIndices now A A).items = A.items ∧
    ((mergeIndices now A A).items.map pluginKey).Nodup := by
  have hseed : seedFromBase A.items = A.items.map (fun p => (pluginKey p, p)) := by
    have h := seedGo_fresh A.items [] (fun p _ => rfl) hkeys
    simpa [seedFromBase] using h
  have hkeysmap : ((A.items.map (fun p => (pluginKey p, p))).map Prod.fst).Nodup := by
    rw [List.map_map]
    simpa [Function.comp] using hkeys
  have hdef : (mergeIndices now A A).items =
      (A.items.foldl
        (fun m plugin =>
          match mapGet m (pluginKey plugin) with
          | some existing => mapSet m (pluginKey plugin) (mergePlugin existing plugin)
          | none => mapSet m (pluginKey plugin) plugin)
        (seedFromBase A.items)).map Prod.snd := rfl
  have hfold : A.items.foldl
      (fun m plugin =>
        match mapGet m (pluginKey plugin) with
        | some existing => mapSet m (pluginKey plugin) (mergePlugin existing plugin)
        | none => mapSet m (pluginKey plugin) plugin)
      (seedFromBase A.items) = seedFromBase A.items := by
    apply foldl_fixed
    intro p hp
    have hget : mapGet (seedFromBase A.items) (pluginKey p) = some p := by
      rw [hseed]
      exact mapGet_of_keysNodup _ _ _ hkeysmap (List.mem_map.mpr ⟨p, hp, rfl⟩)
    simp only [hget]
    rw [mergePlugin_self p (hextra p hp), hseed]
    exact mapSet_self_of_nodup _ _ _ hkeysmap (List.mem_map.mpr ⟨p, hp, rfl⟩)
  have hitems : (mergeIndices now A A).items = A.items := by
    rw [hdef, hfold, hseed, List.map_map]
    exact (List.map_congr_left (fun p _ => rfl)).trans (List.map_id A.items)
  refine ⟨hitems, ?_⟩
  rw [hitems]
  exact hkeys

theorem mergeIndices_self_idempotent_witness :
    (mergeIndices "2024-01-01T00:00:00Z"
      { generated_at := "g", query := none, count := 2,
        items := [fixturePlugin "Alpha" "u1", fixturePlugin "Beta" "u2"] }
      { generated_at := "g", query := none, count := 2,
        items := [fixturePlugin "Alpha" "u1", fixturePlugin "Beta" "u2"] }).items =
      [fixturePlugin "Alpha" "u1", fixturePlugin "Beta" "u2"] ∧
    ((mergeIndices "2024-01-01T00:00:00Z"
      { generated_at := "g", query := none, count := 2,
        items := [fixturePlugin "Alpha" "u1", fixturePlugin "Beta" "u2"] }
      { generated_at := "g", query := none, count := 2,
        items := [fixturePlugin "Alpha" "u1", fixturePlugin "Beta" "u2"] }).items.map
        pluginKey).Nodup :=
  mergeIndices_self_idempotent "2024-01-01T00:00:00Z"
    { generated_at := "g", query := none, count := 2,
      items := [fixturePlugin "Alpha" "u1", fixturePlugin "Beta" "u2"] }
    (by decide) (by decide)

theorem mergeField_secondary_none {α : Type} (isEmptyVal : α → Bool) (primary : Option α) :
    mergeField isEmptyVal primary none = primary := rfl

theorem mergeField_str_empty (primary : Option String) :
    mergeField strIsEmptyVal primary (some "") = primary := by
  simp [mergeField, strIsEmptyVal]

theorem mergeField_str_kept (primary : Option String) (v : String) (h : v ≠ "") :
    mergeField strIsEmptyVal primary (some v) = some v := by
  simp [mergeField, strIsEmptyVal, h]

theorem mergeField_resid_empty (primary : Option ResId) :
    mergeField residIsEmptyVal primary (some (ResId.str "")) = primary := by
  simp [mergeField, residIsEmptyVal]

theorem mergeField_resid_kept (primary : Option ResId) (v : ResId) (h : v ≠ ResId.str "") :
    mergeField residIsEmptyVal primary (some v) = some v := by
  simp [mergeField, residIsEmptyVal, h]

/-- C4: field-level precedence of `mergePlugin`: each scalar field comes
from the enriched record unless absent or empty (then the base value is
kept); the categories list is replaced wholesale only when the enriched
list is non-empty; the whole FileReference follows the enriched record
exactly when it declares a (truthy) direct-download URL; the
RepositoryReference is the enriched one whenever present; and the
extension maps are shallow-merged with enriched keys overriding base
keys. -/
theorem mergePlugin_field_precedence (base enriched : IndexedPlugin) :
    ((enriched.plugin_name = none ∨ enriched.plugin_name = some "") →
      (mergePlugin base enriched).plugin_name = base.plugin_name) ∧
    ((enriched.plugin_name ≠ none ∧ enriched.plugin_name ≠ some "") →
      (mergePlugin base enriched).plugin_name = enriched.plugin_name) ∧
    ((enriched.plugin_author = none ∨ enriched.plugin_author = some "") →
      (mergePlugin base enriched).plugin_author = base.plugin_author) ∧
    ((enriched.plugin_author ≠ none ∧ enriched.plugin_author ≠ some "") →
      (mergePlugin base enriched).plugin_author = enriched.plugin_author) ∧
    ((enriched.plugin_version = none ∨ enriched.plugin_version = some "") →
      (mergePlugin base enriched).plugin_version = base.plugin_version) ∧
    ((enriched.plugin_version ≠ none ∧ enriched.plugin_version ≠ some "") →
      (mergePlugin base enriched).plugin_version = enriched.plugin_version) ∧
    ((enriched.plugin_description = none ∨ enriched.plugin_description = some "") →
      (mergePlugin base enriched).plugin_description = base.plugin_description) ∧
    ((enriched.plugin_description ≠ none ∧ enriched.plugin_description ≠ some "") →
      (mergePlugin base enriched).plugin_description = enriched.plugin_description) ∧
    ((enriched.plugin_resource_id = none ∨
        enriched.plugin_resource_id = some (ResId.str "")) →
      (mergePlugin base enriched).plugin_resource_id = base.plugin_resource_id) ∧
    ((enriched.plugin_resource_id ≠ none ∧
        enriched.plugin_resource_id ≠ some (ResId.str "")) →
      (mergePlugin base enriched).plugin_resource_id = enriched.plugin_resource_id) ∧
    (∀ l, enriched.categories = some l → l ≠ [] →
      (mergePlugin base enriched).categories = some l) ∧
    ((enriched.categories = none ∨ enriched.categories = some []) →
      (mergePlugin base enriched).categories = base.categories) ∧
    (truthy enriched.file.raw_url = true →
      (mergePlugin base enriched).file = enriched.file) ∧
    (truthy enriched.file.raw_url = false →
      (mergePlugin base enriched).file = base.file) ∧
    (∀ repo, enriched.repository = some repo →
      (mergePlugin base enriched).repository = some repo) ∧
    (enriched.repository = none →
      (mergePlugin base enriched).repository = base.repository) ∧
    (∀ k, mapGet (mergePlugin base enriched).extra k =
      (mapGet enriched.extra k).orElse (fun _ => mapGet base.extra k)) := by
  refine ⟨?_, ?_, ?_, ?_, ?_, ?_, ?_, ?_, ?_, ?_, ?_, ?_, ?_, ?_, ?_, ?_, ?_⟩
  · rintro (h | h) <;>
      simp [mergePlugin, h, mergeField_secondary_none, mergeField_str_empty]
  · rintro ⟨h1, h2⟩
    cases hv : enriched.plugin_name with
    | none => exact absurd hv h1
    | some v =>
      have hne : v ≠ "" := fun hveq => h2 (by rw [hv, hveq])
      simp [mergePlugin, hv, mergeField_str_kept _ v hne]
  · rintro (h | h) <;>
      simp [mergePlugin, h, mergeField_secondary_none, mergeField_str_empty]
  · rintro ⟨h1, h2⟩
    cases hv : enriched.plugin_author with
    | none => exact absurd hv h1
    | some v =>
      have hne : v ≠ "" := fun hveq => h2 (by rw [hv, hveq])
      simp [mergePlugin, hv, mergeField_str_kept _ v hne]
  · rintro (h | h) <;>
      simp [mergePlugin, h, mergeField_secondary_none, mergeField_str_empty]
  · rintro ⟨h1, h2⟩
    cases hv : enriched.plugin_version with
    | none => exact absurd hv h1
    | some v =>
      have hne : v ≠ "" := fun hveq => h2 (by rw [hv, hveq])
      simp [mergePlugin, hv, mergeField_str_kept _ v hne]
  · rintro (h | h) <;>
      simp [mergePlugin, h, mergeField_secondary_none, mergeField_str_empty]
  · rintro ⟨h1, h2⟩
    cases hv : enriched.plugin_description with
    | none => exact absurd hv h1
    | some v =>
      have hne : v ≠ "" := fun hveq => h2 (by rw [hv, hveq])
      simp [mergePlugin, hv, mergeField_str_kept _ v hne]
  · rintro (h | h) <;>
      simp [mergePlugin, h, mergeField_secondary_none, mergeField_resid_empty]
  · rintro ⟨h1, h2⟩
    cases hv : enriched.plugin_resource_id with
    | none => exact absurd hv h1
    | some v =>
      have hne : v ≠ ResId.str "" := fun hveq => h2 (by rw [hv, hveq])
      simp [mergePlugin, hv, mergeField_resid_kept _ v hne]
  · intro l hl hne
    have hlen : l.length ≠ 0 := fun h0 => hne (List.length_eq_zero.mp h0)
    simp [mergePlugin, hl, hlen]
  · rintro (h | h) <;> simp [mergePlugin, h]
  · intro h
    simp [mergePlugin, h]
  · intro h
    simp [mergePlugin, h]
  · intro repo h
    simp [mergePlugin, h, Option.orElse]
  · intro h
    simp [mergePlugin, h, Option.orElse]
  · intro k
    exact mapGet_spreadMerge base.extra enriched.extra k

theorem mergePlugin_field_precedence_witness :
    (mergePlugin fixtureBase fixtureEnriched).plugin_name = fixtureEnriched.plugin_name ∧
    (mergePlugin fixtureBase fixtureEnriched).plugin_author = fixtureBase.plugin_author ∧
    (mergePlugin fixtureBase fixtureEnriched).plugin_version = fixtureBase.plugin_version ∧
    (mergePlugin fixtureBase fixtureEnriched).categories = fixtureBase.categories ∧
    (mergePlugin fixtureBase fixtureEnriched).file = fixtureBase.file ∧
    (mergePlugin fixtureBase fixtureEnriched).repository = fixtureBase.repository ∧
    mapGet (mergePlugin fixtureBase fixtureEnriched).extra "b" =
      (mapGet fixtureEnriched.extra "b").orElse
        (fun _ => mapGet fixtureBase.extra "b") := by
  obtain ⟨-, h2, h3, -, h5, -, -, -, -, -, -, h12, -, h14, -, h16, h17⟩ :=
    mergePlugin_field_precedence fixtureBase fixtureEnriched
  exact ⟨h2 (by decide), h3 (Or.inl rfl), h5 (Or.inr rfl), h12 (Or.inr rfl),
    h14 (by decide), h16 rfl, h17 "b"⟩

/-- C1: over two eligible records whose keys are new to the cache, a run in
which the webhook send succeeds for the first record and throws for the
second completes, records exactly one new cache entry — keyed by the first
record's key, stamped with the delivery timestamp — and records nothing for
the failed second record, leaving every other key untouched. -/
theorem processAllPluginsSequentially_partial_failure
    (sendWebhook : IndexedPlugin → Option AttachmentPayload → Except String Unit)
    (getFile : String → Except String (List Nat)) (sha256F : List Nat → String)
    (now : String) (onlyCsAttachments : Bool) (maxAttachmentBytes : Nat)
    (r1 r2 : IndexedPlugin) (entries0 : List (String × CachedEntry))
    (hwf : ∀ e ∈ entries0, e.2.key = e.1)
    (h1url : truthy r1.file.raw_url = true)
    (h2url : truthy r2.file.raw_url = true)
    (h1new : mapGet entries0 (pluginKey r1) = none)
    (h2new : mapGet entries0 (pluginKey r2) = none)
    (hkeys : pluginKey r1 ≠ pluginKey r2)
    (hsend1 : ∀ att, sendWebhook r1 att = Except.ok ())
    (hsend2 : ∀ att, ∃ msg, sendWebhook r2 att = Except.error msg) :
    ∀ final, final = processAllPluginsSequentially sendWebhook getFile sha256F now
        onlyCsAttachments maxAttachmentBytes [r1, r2] entries0 →
      mapGet final (pluginKey r1) =
        some (entryFor getFile sha256F now onlyCsAttachments maxAttachmentBytes r1) ∧
      (entryFor getFile sha256F now onlyCsAttachments maxAttachmentBytes r1).key =
        pluginKey r1 ∧
      (entryFor getFile sha256F now onlyCsAttachments maxAttachmentBytes r1).notifiedAt =
        now ∧
      mapGet final (pluginKey r2) = none ∧
      final.length = entries0.length + 1 ∧
      (∀ k, k ≠ pluginKey r1 → mapGet final k = mapGet entries0 k) := by
  intro final hfinal
  have hnotin1 : ∀ x ∈ entries0.map (fun e => e.2.key), x ≠ pluginKey r1 := by
    intro x hx
    obtain ⟨e, he, hex⟩ := List.mem_map.mp hx
    rw [← hex, hwf e he]
    exact (mapGet_eq_none_iff entries0 (pluginKey r1)).mp h1new e he
  have hnotin2 : ∀ x ∈ entries0.map (fun e => e.2.key), x ≠ pluginKey r2 := by
    intro x hx
    obtain ⟨e, he, hex⟩ := List.mem_map.mp hx
    rw [← hex, hwf e he]
    exact (mapGet_eq_none_iff entries0 (pluginKey r2)).mp h2new e he
  have hstep1 := processLoop_cons_success sendWebhook getFile sha256F now onlyCsAttachments
    maxAttachmentBytes r1 [r2] entries0 (entries0.map (fun e => e.2.key)) h1url
    (contains_false_of_forall hnotin1) hsend1
  have hstep2 := processLoop_cons_failure sendWebhook getFile sha256F now onlyCsAttachments
    maxAttachmentBytes r2 []
    (mapSet entries0 (pluginKey r1)
      (entryFor getFile sha256F now onlyCsAttachments maxAttachmentBytes r1))
    (pluginKey r1 :: entries0.map (fun e => e.2.key)) h2url
    (contains_false_of_forall (by
      intro x hx
      rcases List.mem_cons.mp hx with hx1 | hx2
      · rw [hx1]
        exact hkeys
      · exact hnotin2 x hx2)) hsend2
  have hrun : final = mapSet entries0 (pluginKey r1)
      (entryFor getFile sha256F now onlyCsAttachments maxAttachmentBytes r1) := by
    rw [hfinal]
    unfold processAllPluginsSequentially
    rw [hstep1, hstep2]
    rfl
  rw [hrun]
  refine ⟨mapGet_mapSet_self _ _ _, rfl, rfl, ?_, ?_, ?_⟩
  · rw [mapGet_mapSet_other _ _ _ _ (fun hk => hkeys hk.symm)]
    exact h2new
  · rw [mapSet_fresh _ _ _ h1new, List.length_append]
    rfl
  · intro k hk
    exact mapGet_mapSet_other _ _ _ _ hk

theorem processAllPluginsSequentially_partial_failure_witness :
    mapGet (processAllPluginsSequentially fixtureSendOracle fixtureGetFile fixtureSha256
        "2024-01-01T00:00:00Z" true 8000000
        [fixturePlugin "Alpha" "u1", fixturePlugin "Beta" "u2"] [])
        (pluginKey (fixturePlugin "Alpha" "u1")) =
      some (entryFor fixtureGetFile fixtureSha256 "2024-01-01T00:00:00Z" true 8000000
        (fixturePlugin "Alpha" "u1")) ∧
    mapGet (processAllPluginsSequentially fixtureSendOracle fixtureGetFile fixtureSha256
        "2024-01-01T00:00:00Z" true 8000000
        [fixturePlugin "Alpha" "u1", fixturePlugin "Beta" "u2"] [])
        (pluginKey (fixturePlugin "Beta" "u2")) = none ∧
    (processAllPluginsSequentially fixtureSendOracle fixtureGetFile fixtureSha256
        "2024-01-01T00:00:00Z" true 8000000
        [fixturePlugin "Alpha" "u1", fixturePlugin "Beta" "u2"] []).length = 1 := by
  obtain ⟨ha, -, -, hb, hlen, -⟩ := processAllPluginsSequentially_partial_failure
    fixtureSendOracle fixtureGetFile fixtureSha256 "2024-01-01T00:00:00Z" true 8000000
    (fixturePlugin "Alpha" "u1") (fixturePlugin "Beta" "u2") []
    (by intro e he; simp at he) (by decide) (by decide) rfl rfl (by decide)
    (fun _ => rfl) (fun _ => ⟨"boom", rfl⟩)
    (processAllPluginsSequentially fixtureSendOracle fixtureGetFile fixtureSha256
      "2024-01-01T00:00:00Z" true 8000000
      [fixturePlugin "Alpha" "u1", fixturePlugin "Beta" "u2"] []) rfl
  exact ⟨ha, hb, by simpa using hlen⟩

/-- C8: through `sendPluginWebhook`, at most `MAX_WEBHOOK_ATTEMPTS = 5`
POST attempts are made; a run that exhausts the ceiling consists of 5
retryable failures; a delivered or terminal run ends on its final attempt
with every earlier attempt a retryable failure (429 or 5xx); each retryable
failure sleeps exactly the prescribed delay — `1000 * (retry_after ?? 1)`
ms after a 429, `500 * (attempt + 1)` ms after a 5xx — and any other
failure (non-429 4xx or network error) is terminal immediately, with no
further attempts. -/
theorem sendPluginWebhook_retry_protocol (webhookUrl : String)
    (outcomes : Nat → WebhookOutcome) (run : SendRun)
    (hrun : sendPluginWebhook webhookUrl outcomes = Except.ok run) :
    run.attempts ≤ maxWebhookAttempts ∧
    (run.result = SendStatus.exhausted → run.attempts = maxWebhookAttempts) ∧
    RunMatchesProtocol outcomes 0 run := by
  have hloop : run = sendLoop outcomes 0 maxWebhookAttempts := by
    unfold sendPluginWebhook at hrun
    by_cases hw : (webhookUrl == "") = true
    · rw [if_pos hw] at hrun
      exact absurd hrun (by simp)
    · rw [if_neg hw] at hrun
      exact (Option.some.inj (by simpa using hrun)).symm
  obtain ⟨hle, hexh, hprot⟩ := sendLoop_protocol outcomes maxWebhookAttempts 0
  rw [hloop]
  exact ⟨hle, hexh, hprot⟩

theorem sendPluginWebhook_retry_protocol_witness :
    (sendLoop (fun i => if i = 0 then WebhookOutcome.http 429 (some 3)
        else if i = 1 then WebhookOutcome.http 503 none
        else WebhookOutcome.success) 0 maxWebhookAttempts).attempts ≤ maxWebhookAttempts ∧
    ((sendLoop (fun i => if i = 0 then WebhookOutcome.http 429 (some 3)
        else if i = 1 then WebhookOutcome.http 503 none
        else WebhookOutcome.success) 0 maxWebhookAttempts).result = SendStatus.exhausted →
      (sendLoop (fun i => if i = 0 then WebhookOutcome.http 429 (some 3)
        else if i = 1 then WebhookOutcome.http 503 none
        else WebhookOutcome.success) 0 maxWebhookAttempts).attempts = maxWebhookAttempts) ∧
    RunMatchesProtocol (fun i => if i = 0 then WebhookOutcome.http 429 (some 3)
        else if i = 1 then WebhookOutcome.http 503 none
        else WebhookOutcome.success) 0
      (sendLoop (fun i => if i = 0 then WebhookOutcome.http 429 (some 3)
        else if i = 1 then WebhookOutcome.http 503 none
        else WebhookOutcome.success) 0 maxWebhookAttempts) :=
  sendPluginWebhook_retry_protocol "https://discord.example/webhook"
    (fun i => if i = 0 then WebhookOutcome.http 429 (some 3)
      else if i = 1 then WebhookOutcome.http 503 none
      else WebhookOutcome.success)
    (sendLoop (fun i => if i = 0 then WebhookOutcome.http 429 (some 3)
      else if i = 1 then WebhookOutcome.http 503 none
      else WebhookOutcome.success) 0 maxWebhookAttempts) rfl
